import Mathlib

/-!
Verification of `mhcnames/helpers.py`.

Shallow embedding of the string-normalization helpers and the
`NormalizingDictionary` container of `mhcnames/helpers.py`, together with
proofs and refutations of the specified properties.

Modelling conventions:
* Python strings are Lean `String`s; `str.upper` / `str.lower` are modelled
  character-wise with `Char.toUpper` / `Char.toLower` (ASCII case mapping,
  which is all this module exercises).
* `name.replace(c, "")` for a single character `c` removes every occurrence
  of `c`, i.e. it is a filter on the character list.
* `name.strip()` removes leading and trailing whitespace; whitespace is
  modelled by `Char.isWhitespace` (space, tab, CR, LF).
* `" " in name` is containment of the single space character.
* Python `dict`s are insertion-ordered association lists; `__setitem__`
  overwrites in place when the key is present and appends otherwise.
* A `defaultdict(set)` is modelled as a total function with default `[]`,
  sets being modelled as duplicate-free insertion-ordered lists.
* Raising an exception is modelled with `Except`, the error payload being
  the argument of the raised exception.
-/

/-- The apostrophe character (ASCII 39), third member of the default
`chars_to_remove` string (dash, underscore, apostrophe). -/
def apostrophe : Char := Char.ofNat 39

/-- The default `chars_to_remove` parameter (dash, underscore, apostrophe) shared by
`expand_strings` and `normalize_string`. -/
def defaultCharsToRemove : List Char := ['-', '_', apostrophe]

/-- Python `name.upper()`, character-wise ASCII uppercasing. -/
def pyUpper (s : String) : String := ⟨s.data.map Char.toUpper⟩

/-- Python `name.lower()`, character-wise ASCII lowercasing. -/
def pyLower (s : String) : String := ⟨s.data.map Char.toLower⟩

/-- Python `name.replace(c, "")`: remove every occurrence of the character
`c` from the string. -/
def removeChar (c : Char) (s : String) : String :=
  ⟨s.data.filter (fun a => a != c)⟩

/-- Python `name.strip()`: remove leading and trailing whitespace. -/
def pyStrip (s : String) : String :=
  ⟨((s.data.dropWhile Char.isWhitespace).reverse.dropWhile
      Char.isWhitespace).reverse⟩

/-- Python `" " in name`: the string contains a space character. -/
def containsSpace (s : String) : Bool := s.data.contains ' '

/-- Embedding of `normalize_string(name, chars_to_remove)` from `helpers.py` (default characters dash, underscore, apostrophe):

```python
if " " in name:
    name = name.strip()
name = name.upper()
for char in chars_to_remove:
    if char in name:
        name = name.replace(char, "")
return name
```
-/
def normalize_string (name : String)
    (chars_to_remove : List Char := defaultCharsToRemove) : String :=
  let name1 := if containsSpace name then pyStrip name else name
  let name2 := pyUpper name1
  chars_to_remove.foldl
    (fun n c => if n.data.contains c then removeChar c n else n) name2

/-- Embedding of `expand_strings(*names, chars_to_remove)` from `helpers.py` (default characters dash, underscore, apostrophe):
starting from the set of input names, one pass per removal character adds
the char-removed image of the current set, then one pass adds the
uppercased image, then one pass adds the lowercased image.  Each Python
pass `for name in list(result_set): result_set.add(f(name))` turns the
set `r` into the union of `r` and the image of `r` under `f`.
-/
def expand_strings (names : List String)
    (chars_to_remove : List Char := defaultCharsToRemove) : Finset String :=
  let r0 : Finset String := names.toFinset
  let r1 := chars_to_remove.foldl
    (fun r c => r ∪ r.image (removeChar c)) r0
  let r2 := r1 ∪ r1.image pyUpper
  r2 ∪ r2.image pyLower

/-- Values of a Python dictionary fed to `invert_dictionary`: either a
scalar (here a string) or a collection (`list`, `tuple` or `set`) of
strings; the three collection kinds are iterated identically by the code. -/
inductive DictVal where
  | scalar (s : String)
  | coll (l : List String)
deriving DecidableEq, Repr

/-- Step `result[vi].add(k)` on the `defaultdict(set)` accumulator of
`invert_dictionary`: add key `k` to the set stored under value `vi`. -/
def addKeyUnder (r : String → Finset String) (vi k : String) :
    String → Finset String :=
  fun v => if v = vi then insert k (r v) else r v

/-- Embedding of `invert_dictionary(d)` from `helpers.py`: turn a `{key: value}` mapping
into a `{value: set(keys)}` mapping; a `list`/`tuple`/`set` value
contributes one entry per element.  The `defaultdict(set)` result is
modelled as a total function whose value at an untouched point is `∅`.
-/
def invert_dictionary (d : List (String × DictVal)) :
    String → Finset String :=
  d.foldl
    (fun r kv =>
      match kv.2 with
      | .coll l => l.foldl (fun r vi => addKeyUnder r vi kv.1) r
      | .scalar s => addKeyUnder r s kv.1)
    (fun _ => ∅)

/-! The `NormalizingDictionary` container

The three data attributes created by `__init__` are `store`,
`original_to_normalized_key_dict` and `normalized_to_original_keys_dict`;
the two Python `dict`s are insertion-ordered association lists and the
`defaultdict(set)` is a total function with default `[]` (sets as
duplicate-free lists). -/

/-- Insertion-ordered Python `dict` assignment `l[k] = v`: overwrite in
place when `k` is present, append otherwise. -/
def assocSet {α : Type} (l : List (String × α)) (k : String) (v : α) :
    List (String × α) :=
  if (l.map Prod.fst).contains k then
    l.map (fun p => if p.1 = k then (k, v) else p)
  else
    l ++ [(k, v)]

/-- Python `k in l` / `l[k]` for the association-list model of `dict`. -/
def assocLookup {α : Type} (l : List (String × α)) (k : String) : Option α :=
  (l.find? (fun p => p.1 == k)).map Prod.snd

/-- Python `set.add` on the duplicate-free-list model of `set`. -/
def setAdd (l : List String) (k : String) : List String :=
  if l.contains k then l else l ++ [k]

/-- The state of a `NormalizingDictionary` with values of type `α`:
its five instance attributes. -/
structure NormalizingDictionary (α : Type) where
  store : List (String × α)
  original_to_normalized_key_dict : List (String × String)
  normalized_to_original_keys_dict : String → List String
  normalize_fn : String → String
  default_value_fn : Option (Unit → α)

namespace NormalizingDictionary

/-- Method `__setitem__(self, k, v)`: record `k ↦ normalize_fn(k)`, accumulate
`k` into the original-key set of `normalize_fn(k)`, and overwrite the
stored value under `normalize_fn(k)`. -/
def setitem {α : Type} (d : NormalizingDictionary α) (k : String) (v : α) :
    NormalizingDictionary α :=
  let kn := d.normalize_fn k
  { d with
    original_to_normalized_key_dict :=
      assocSet d.original_to_normalized_key_dict k kn
    normalized_to_original_keys_dict := fun n =>
      if n = kn then setAdd (d.normalized_to_original_keys_dict kn) k
      else d.normalized_to_original_keys_dict n
    store := assocSet d.store kn v }

/-- Constructor `__init__(self, *pairs, normalize_fn=normalize_string,
default_value_fn=None)`: empty attributes, then one `__setitem__` per
initial pair, in order. -/
def init {α : Type} (pairs : List (String × α))
    (normalize_fn : String → String := fun s => normalize_string s)
    (default_value_fn : Option (Unit → α) := none) :
    NormalizingDictionary α :=
  pairs.foldl (fun d p => d.setitem p.1 p.2)
    { store := []
      original_to_normalized_key_dict := []
      normalized_to_original_keys_dict := fun _ => []
      normalize_fn := normalize_fn
      default_value_fn := default_value_fn }

/-- Method `__getitem__(self, k)`: look up under the normalized key; when absent,
either store and return a fresh default value (factory configured) or
raise `KeyError(k)` carrying the original key.  The returned state is the
container after the call. -/
def getitem {α : Type} (d : NormalizingDictionary α) (k : String) :
    Except String α × NormalizingDictionary α :=
  let kn := d.normalize_fn k
  match assocLookup d.store kn with
  | some v => (.ok v, d)
  | none =>
    match d.default_value_fn with
    | some f =>
      let v := f ()
      (.ok v, { d with store := assocSet d.store kn v })
    | none => (.error k, d)

/-- Method `get(self, k, v=None)`: `self.store.get(self.normalize_fn(k), v)` —
never stores, never raises, never calls the factory. -/
def get {α : Type} (d : NormalizingDictionary α) (k : String) (v : α) : α :=
  (assocLookup d.store (d.normalize_fn k)).getD v

/-- Method `normalized_keys(self)`: `self.store.keys()`. -/
def normalized_keys {α : Type} (d : NormalizingDictionary α) : List String :=
  d.store.map Prod.fst

/-- Method `keys_aligned_with_values(self)`: the original-key set of each
normalized key present in the store, in store order. -/
def keys_aligned_with_values {α : Type} (d : NormalizingDictionary α) :
    List (List String) :=
  d.normalized_keys.map d.normalized_to_original_keys_dict

/-- Method `values(self)`: `self.store.values()`. -/
def values {α : Type} (d : NormalizingDictionary α) : List α :=
  d.store.map Prod.snd

/-- Method `items(self)`: `zip(self.keys_aligned_with_values(), self.values())`. -/
def items {α : Type} (d : NormalizingDictionary α) :
    List (List String × α) :=
  d.keys_aligned_with_values.zip d.values

end NormalizingDictionary

/-! Attribute names (for `keys()`)

`keys(self)` returns `self.original_to_normalized_keys_dict.keys()`, but
no method ever binds an attribute of that name: `__init__` binds the five
attributes below (`__setitem__` only item-assigns into two of them), so
the read fails. -/

/-- The instance attributes bound by `__init__` (the only attribute
bindings in the class). -/
def instanceAttributeNames : List String :=
  ["store", "original_to_normalized_key_dict",
   "normalized_to_original_keys_dict", "normalize_fn", "default_value_fn"]

/-- The attribute name read by `keys(self)` at line 139 of `helpers.py`. -/
def keysMethodAttributeRead : String := "original_to_normalized_keys_dict"

/-! Python objects, for `NormalizingDictionary.invert`

`invert` manipulates dynamically typed values: container values may be
scalars or collections, and `result[vi].add(k)` adds the *set* `k` of
original keys to a set.  `PyObj` models the object kinds in play. -/

/-- A Python object as handled by `invert`: a string, or a `list`,
`tuple` or `set` of objects. -/
inductive PyObj where
  | str (s : String)
  | list (l : List PyObj)
  | tuple (l : List PyObj)
  | pyset (l : List PyObj)
deriving Repr

/-- Structural equality of Python objects (`==`). -/
def PyObj.beq : PyObj → PyObj → Bool
  | .str a, .str b => a == b
  | .list a, .list b => go a b
  | .tuple a, .tuple b => go a b
  | .pyset a, .pyset b => go a b
  | _, _ => false
where go : List PyObj → List PyObj → Bool
  | [], [] => true
  | x :: xs, y :: ys => PyObj.beq x y && go xs ys
  | _, _ => false

/-- Whether a Python object is hashable: strings and tuples are, `list`s
and `set`s are not. -/
def PyObj.hashable : PyObj → Bool
  | .str _ => true
  | .tuple _ => true
  | .list _ => false
  | .pyset _ => false

/-- Python `s.add(x)` on a set object: hashing `x` raises `TypeError`
when `x` is unhashable; otherwise `x` is added unless already present.
Calling `add` on a non-set has no `add` attribute. -/
def pySetAdd (s : PyObj) (x : PyObj) : Except String PyObj :=
  match s with
  | .pyset l =>
    if x.hashable then
      .ok (.pyset (if l.any (fun y => PyObj.beq y x) then l else l ++ [x]))
    else
      .error "TypeError: unhashable type"
  | _ => .error "AttributeError: add"

namespace NormalizingDictionary

/-- One execution of `result[vi].add(k)` inside `invert`, where `ks` is
the aligned original-key set `k` (a Python `set`) and `vi` the element of
`values` used as a key of `result`.  `result[vi]` first runs
`__getitem__` (possibly storing a fresh default set), then `.add(k)` is
attempted on the returned set object; an in-place mutation of that object
is rendered by writing the new set back under the normalized key.  A
non-string `vi` would fail inside `normalize_string` at `vi.upper()`. -/
def invertStep (result : NormalizingDictionary PyObj) (ks : List String)
    (vi : PyObj) : Except String (NormalizingDictionary PyObj) :=
  match vi with
  | .str sv =>
    match result.getitem sv with
    | (.ok setObj, result') =>
      match pySetAdd setObj (.pyset (ks.map .str)) with
      | .ok newSet =>
        .ok { result' with
              store := assocSet result'.store (result'.normalize_fn sv) newSet }
      | .error e => .error e
    | (.error e, _) => .error e
  | _ => .error "AttributeError: upper"

/-- Embedding of `invert(self)` from `helpers.py`:

```python
result = NormalizingDictionary(
    normalize_fn=self.normalize_fn, default_value_fn=set)
for (k, v) in self.items():
    if isinstance(v, (list, tuple, set)):
        values = v
    else:
        values = [v]
    for vi in values:
        result[vi].add(k)
return result
```
-/
def invert (d : NormalizingDictionary PyObj) :
    Except String (NormalizingDictionary PyObj) :=
  d.items.foldlM
    (fun result kv =>
      let vals : List PyObj :=
        match kv.2 with
        | .list l => l
        | .tuple l => l
        | .pyset l => l
        | x => [x]
      vals.foldlM (fun result vi => invertStep result kv.1 vi) result)
    (init [] d.normalize_fn (some fun _ => .pyset []))

end NormalizingDictionary

/-! Claim-side definitions

These render the descriptions of outputs given by the spec (they are compared with
the source-translated functions in the theorems below). -/

/-- Rendering of the description the spec gives of the normalizer output: every occurrence of
each designated character (hyphen, underscore, apostrophe) removed. -/
def removeDesignatedChars (s : String) : String :=
  ⟨s.data.filter (fun c => !(c == '-' || c == '_' || c == apostrophe))⟩

/-- Remove every occurrence of `c` when `b` is set, else leave the
string alone: `condRemove b1 '-' ∘ condRemove b2 '_' ∘ …` realises the
removal of an arbitrary subset of the designated characters. -/
def condRemove (b : Bool) (c : Char) (s : String) : String :=
  if b then removeChar c s else s

/-- Rendering of the membership condition the spec states for `invert_dictionary`: key `k` maps
to `v` directly or via membership in a collection value. -/
def keyMapsToValue (d : List (String × DictVal)) (k v : String) : Prop :=
  ∃ val, (k, val) ∈ d ∧ (val = .scalar v ∨ ∃ l, val = .coll l ∧ v ∈ l)

/-- The dictionary `{"x": ["a","b"], "y": "a"}` of the concrete
inversion scenario of the spec. -/
def exampleDict : List (String × DictVal) :=
  [("x", .coll ["a", "b"]), ("y", .scalar "a")]

/-! Concrete containers used by the witnesses -/

/-- A `NormalizingDictionary()` over string values, after
`d["Foo-Bar"] = "one"` and `d["foobar"] = "two"`. -/
def fooBarContainer : NormalizingDictionary String :=
  ((NormalizingDictionary.init ([] : List (String × String))).setitem
    "Foo-Bar" "one").setitem "foobar" "two"

/-- A `NormalizingDictionary(default_value_fn=set)` over set values
(modelled as duplicate-free lists), freshly constructed. -/
def defaultSetContainer : NormalizingDictionary (List String) :=
  NormalizingDictionary.init [] (fun s => normalize_string s)
    (some fun _ => [])

/-- State of `defaultSetContainer` after the default empty set has been stored
under the normalization of `"absent"`. -/
def defaultSetContainerAfter : NormalizingDictionary (List String) :=
  { defaultSetContainer with
    store := assocSet defaultSetContainer.store
      (defaultSetContainer.normalize_fn "absent") [] }

/-- A `NormalizingDictionary()` (no default factory) over string values,
after `d["Foo-Bar"] = "one"`. -/
def noFactoryContainer : NormalizingDictionary String :=
  (NormalizingDictionary.init ([] : List (String × String))).setitem
    "Foo-Bar" "one"

/-! Association-list lemmas -/

/-- If `k` occurs among the keys of `t`, overwriting `k` with `v` makes
the lookup of `k` return `v`. -/
theorem assocLookup_replace_of_mem {α : Type} (t : List (String × α))
    (k : String) (v : α) (h : (t.map Prod.fst).contains k = true) :
    assocLookup (t.map (fun q => if q.1 = k then (k, v) else q)) k = some v := by
  induction t with
  | nil => simp at h
  | cons p t ih =>
    by_cases hp : p.1 = k
    · simp [assocLookup, List.find?, hp]
    · have hbeq : (p.1 == k) = false := by simpa using hp
      have hkp : (k == p.1) = false := by simpa using Ne.symm hp
      simp only [List.map_cons, List.contains_cons, hkp, Bool.false_or] at h
      simp only [List.map_cons, assocLookup, List.find?, hp, if_false, hbeq]
      exact ih h

/-- Looking up `k` right after appending the entry `(k, v)` to a list in
which `k` was absent returns `v`. -/
theorem assocLookup_append_self {α : Type} (t : List (String × α))
    (k : String) (v : α) (h : assocLookup t k = none) :
    assocLookup (t ++ [(k, v)]) k = some v := by
  induction t with
  | nil => simp [assocLookup]
  | cons p t ih =>
    by_cases hp : p.1 = k
    · exfalso
      simp [assocLookup, List.find?, hp] at h
    · have hbeq : (p.1 == k) = false := by simpa using hp
      simp only [assocLookup, List.cons_append, List.find?, hbeq] at *
      exact ih h

/-- A key absent from the key column of an association list looks up to
`none`. -/
theorem assocLookup_eq_none_of_contains_false {α : Type}
    (l : List (String × α)) (k : String)
    (h : (l.map Prod.fst).contains k = false) :
    assocLookup l k = none := by
  induction l with
  | nil => rfl
  | cons p t ih =>
    simp only [List.map_cons, List.contains_cons, Bool.or_eq_false_iff] at h
    have hbeq : (p.1 == k) = false := by
      simpa [BEq.comm] using h.1
    simp only [assocLookup, List.find?, hbeq]
    exact ih h.2

/-- Python `dict` assignment followed by lookup of the same key returns
the assigned value. -/
theorem assocLookup_assocSet_self {α : Type} (l : List (String × α))
    (k : String) (v : α) :
    assocLookup (assocSet l k v) k = some v := by
  unfold assocSet
  split
  · exact assocLookup_replace_of_mem l k v (by assumption)
  · apply assocLookup_append_self
    apply assocLookup_eq_none_of_contains_false
    rename_i hc
    simpa using hc

/-! Claim theorems -/

/-- C1: Last write wins under normalization collision: in any
normalizing container, after assigning `v1` to `k1` and then `v2` to
`k2`, where `k1` and `k2` have the same normalized form, looking up
either key returns `v2`, leaves the container unchanged, and the store
holds `v2` as the single value under the shared normalized key. -/
theorem lastWriteWinsOnCollision {α : Type}
    (d : NormalizingDictionary α) (k1 k2 : String) (v1 v2 : α)
    (h : d.normalize_fn k1 = d.normalize_fn k2) :
    ((d.setitem k1 v1).setitem k2 v2).getitem k1
      = (.ok v2, (d.setitem k1 v1).setitem k2 v2)
    ∧ ((d.setitem k1 v1).setitem k2 v2).getitem k2
      = (.ok v2, (d.setitem k1 v1).setitem k2 v2)
    ∧ assocLookup ((d.setitem k1 v1).setitem k2 v2).store
        (d.normalize_fn k1) = some v2 := by
  have hl1 : assocLookup
      (assocSet (assocSet d.store (d.normalize_fn k1) v1)
        (d.normalize_fn k2) v2) (d.normalize_fn k1) = some v2 := by
    rw [h]
    exact assocLookup_assocSet_self _ _ _
  have hl2 : assocLookup
      (assocSet (assocSet d.store (d.normalize_fn k1) v1)
        (d.normalize_fn k2) v2) (d.normalize_fn k2) = some v2 :=
    assocLookup_assocSet_self _ _ _
  refine ⟨?_, ?_, hl1⟩
  · simp only [NormalizingDictionary.getitem, NormalizingDictionary.setitem]
    rw [hl1]
  · simp only [NormalizingDictionary.getitem, NormalizingDictionary.setitem]
    rw [hl2]

/-- Witness for C1: assigning `"one"` to `"Foo-Bar"` and then `"two"` to
`"foobar"` (both normalize to `"FOOBAR"`), each lookup returns `"two"`. -/
theorem lastWriteWinsOnCollision_witness :
    normalize_string "Foo-Bar" = normalize_string "foobar"
    ∧ fooBarContainer.getitem "Foo-Bar" = (.ok "two", fooBarContainer)
    ∧ fooBarContainer.getitem "foobar" = (.ok "two", fooBarContainer) := by
  refine ⟨by decide, ?_, ?_⟩
  · exact (lastWriteWinsOnCollision
      (NormalizingDictionary.init []) "Foo-Bar" "foobar" "one" "two"
      (by decide)).1
  · exact (lastWriteWinsOnCollision
      (NormalizingDictionary.init []) "Foo-Bar" "foobar" "one" "two"
      (by decide)).2.1

/-- C2: Lookup on an absent normalized key: with no factory the lookup
raises `KeyError` and changes nothing; with a factory `f` it stores and
returns `f ()`, every subsequent lookup of the same key returns that same
stored value with no further state change, and the result of that
subsequent lookup does not depend on the factory (it is the same for any
replacement factory `g`). -/
theorem lookupAbsentKey {α : Type} (d : NormalizingDictionary α)
    (k : String)
    (habs : assocLookup d.store (d.normalize_fn k) = none) :
    (d.default_value_fn = none → d.getitem k = (.error k, d))
    ∧ ∀ f : Unit → α, d.default_value_fn = some f →
        d.getitem k
          = (.ok (f ()),
             { d with store := assocSet d.store (d.normalize_fn k) (f ()) })
        ∧ ({ d with store := assocSet d.store (d.normalize_fn k) (f ()) }
            : NormalizingDictionary α).getitem k
          = (.ok (f ()),
             { d with store := assocSet d.store (d.normalize_fn k) (f ()) })
        ∧ ∀ g : Option (Unit → α),
            ({ d with
               store := assocSet d.store (d.normalize_fn k) (f ()),
               default_value_fn := g }
              : NormalizingDictionary α).getitem k
              = (.ok (f ()),
                 { d with
                   store := assocSet d.store (d.normalize_fn k) (f ()),
                   default_value_fn := g }) := by
  constructor
  · intro hdef
    simp only [NormalizingDictionary.getitem, habs, hdef]
  · intro f hdef
    have hafter : assocLookup
        (assocSet d.store (d.normalize_fn k) (f ())) (d.normalize_fn k)
        = some (f ()) := assocLookup_assocSet_self _ _ _
    refine ⟨?_, ?_, fun g => ?_⟩
    · simp only [NormalizingDictionary.getitem, habs, hdef]
    · simp only [NormalizingDictionary.getitem, hafter]
    · simp only [NormalizingDictionary.getitem, hafter]

/-- Witness for C2: on a fresh `NormalizingDictionary(default_value_fn=set)`,
looking up `"absent"` creates, stores and returns the empty set, and a
second lookup returns the same stored empty set with no state change. -/
theorem lookupAbsentKey_witness :
    defaultSetContainer.getitem "absent"
      = (.ok [], defaultSetContainerAfter)
    ∧ defaultSetContainerAfter.getitem "absent"
      = (.ok [], defaultSetContainerAfter) := by
  have h := (lookupAbsentKey defaultSetContainer "absent" rfl).2
    (fun _ => []) rfl
  exact ⟨h.1, h.2.1⟩

/-- C10: Failure atomicity and error payload of lookup: with no
default factory and the normalized key absent, `__getitem__` raises
`KeyError` carrying the original un-normalized key and returns the
container exactly as it was (store and both auxiliary key mappings
unchanged). -/
theorem lookupFailureAtomic {α : Type} (d : NormalizingDictionary α)
    (k : String) (hdef : d.default_value_fn = none)
    (habs : assocLookup d.store (d.normalize_fn k) = none) :
    d.getitem k = (.error k, d) := by
  simp only [NormalizingDictionary.getitem, habs, hdef]

/-- Witness for C10: looking up `"mi-ssing"` (normalized `"MISSING"`) in
a factory-less container raises an error carrying `"mi-ssing"` itself —
not its normalized form — and leaves the container unchanged. -/
theorem lookupFailureAtomic_witness :
    noFactoryContainer.getitem "mi-ssing"
      = (.error "mi-ssing", noFactoryContainer)
    ∧ "mi-ssing" ≠ normalize_string "mi-ssing" := by
  refine ⟨?_, by decide⟩
  exact lookupFailureAtomic noFactoryContainer "mi-ssing" rfl (by decide)

/-- C3 (refuting the no-failure part): `invert` on the container
`{"a": "b"}` raises `TypeError` — `result[vi].add(k)` adds the aligned
original-key *set* `k` itself, an unhashable object, to the result set —
while `invert` on the empty container does return the fresh container
with the same normalization function and the empty-set factory. -/
theorem invertRaisesTypeError :
    ((NormalizingDictionary.init ([] : List (String × PyObj))).setitem
        "a" (.str "b")).invert
      = .error "TypeError: unhashable type"
    ∧ (NormalizingDictionary.init ([] : List (String × PyObj))).invert
      = .ok (NormalizingDictionary.init []
          (fun s => normalize_string s) (some fun _ => PyObj.pyset [])) :=
  ⟨rfl, rfl⟩

/-- C4 (refuting as written): `keys()` reads the attribute
`original_to_normalized_keys_dict`, which is not among the attributes
ever bound on the instance (`__init__` binds
`original_to_normalized_key_dict`, singular), so `keys()` raises
`AttributeError` instead of returning the original keys. -/
theorem keysReadsUnboundAttribute :
    keysMethodAttributeRead ∉ instanceAttributeNames := by decide

/-- C7 (refuting idempotence): `normalize_string "- a"` contains a
space, so it is stripped (a no-op), uppercased to `"- A"`, and the dash
removal exposes a *leading* space: the result is `" A"`.  Normalizing
again strips that space, so normalization is not idempotent — and the
first result contradicts the docstring "without any surrounding
whitespace". -/
theorem normalizeStringNotIdempotent :
    normalize_string "- a" = " A"
    ∧ normalize_string (normalize_string "- a") = "A"
    ∧ normalize_string (normalize_string "- a") ≠ normalize_string "- a" := by
  refine ⟨by decide, by decide, by decide⟩

/-! Normalizer lemmas -/

/-- The guarded replacement in the loop body of `normalize_string` equals the
unguarded one: replacing a character that does not occur is a no-op. -/
theorem condReplace_eq_removeChar (n : String) (c : Char) :
    (if n.data.contains c then removeChar c n else n) = removeChar c n := by
  by_cases h : n.data.contains c
  · rw [if_pos h]
  · rw [if_neg (by simpa using h)]
    have hmem : c ∉ n.data := by simpa using h
    unfold removeChar
    have : n.data.filter (fun a => a != c) = n.data :=
      List.filter_eq_self.mpr (fun a ha => by
        simp only [bne_iff_ne, ne_eq, decide_eq_true_eq]
        rintro rfl
        exact hmem ha)
    rw [this]

/-- The character-removal loop of `normalize_string` over the default
character set is the sequential removal of dash, underscore and apostrophe. -/
theorem normalize_removal_loop (m : String) :
    defaultCharsToRemove.foldl
      (fun n c => if n.data.contains c then removeChar c n else n) m
      = removeChar apostrophe (removeChar '_' (removeChar '-' m)) := by
  simp only [defaultCharsToRemove, List.foldl, condReplace_eq_removeChar]

/-- Sequentially removing the three designated characters removes every
occurrence of each of them, in one description. -/
theorem triple_removeChar_eq (m : String) :
    removeChar apostrophe (removeChar '_' (removeChar '-' m))
      = removeDesignatedChars m := by
  unfold removeChar removeDesignatedChars
  simp only [List.filter_filter]
  congr 1
  apply List.filter_congr
  intro a _
  cases h1 : a == '-' <;> cases h2 : a == '_' <;> cases h3 : a == apostrophe <;>
    simp [bne, h1, h2, h3]

/-- A string none of whose characters is whitespace contains no space. -/
theorem containsSpace_eq_false (s : String)
    (h : ∀ c ∈ s.data, c.isWhitespace = false) :
    containsSpace s = false := by
  unfold containsSpace
  by_contra hc
  have hmem : ' ' ∈ s.data := by
    simpa using Bool.not_eq_false _ |>.mp hc
  have := h ' ' hmem
  simp [Char.isWhitespace] at this

/-- C5: Normalizer contract on whitespace-free input: on any string
with no whitespace character, `normalize_string` returns the uppercased
string with every designated character removed; concretely
normalizing the apostrophe scenario string el-ElvoY-apostrophe-s gives `"ELELVOYS"` and
`normalize_string "" = ""`. -/
theorem normalizeWhitespaceFree :
    (∀ s : String, (∀ c ∈ s.data, c.isWhitespace = false) →
      normalize_string s = removeDesignatedChars (pyUpper s))
    ∧ normalize_string ("el-ElvoY" ++ ⟨[apostrophe]⟩ ++ "s") = "ELELVOYS"
    ∧ normalize_string "" = "" := by
  refine ⟨?_, by decide, by decide⟩
  intro s hws
  have hns := containsSpace_eq_false s hws
  simp only [normalize_string, hns, Bool.false_eq_true, if_false,
    normalize_removal_loop, triple_removeChar_eq]

/-- Witness for C5: `"Foo-Bar"` contains no whitespace, and its
normalization is its uppercase form with the designated characters
removed. -/
theorem normalizeWhitespaceFree_witness :
    (∀ c ∈ "Foo-Bar".data, c.isWhitespace = false)
    ∧ normalize_string "Foo-Bar" = removeDesignatedChars (pyUpper "Foo-Bar") := by
  refine ⟨by decide, ?_⟩
  exact normalizeWhitespaceFree.1 "Foo-Bar" (by decide)

/-- Counterexample to C6 as stated: `"\ta"` contains a whitespace
character (the tab), yet `normalize_string` does not strip it — the
strip is triggered by the space character only. -/
theorem stripConditionCounterexample :
    ('\t' ∈ "\ta".data ∧ ('\t' : Char).isWhitespace = true)
    ∧ normalize_string "\ta"
        ≠ removeDesignatedChars (pyUpper (pyStrip "\ta")) := by
  refine ⟨⟨by decide, by decide⟩, by decide⟩

/-- C6 (amended): the conditional strip is triggered exactly by the
presence of the space character: when a space occurs anywhere in the
input, leading and trailing whitespace is stripped before uppercasing
and character removal; when no space occurs — even if other
whitespace does — no strip is performed. -/
theorem stripExactlyOnSpace (s : String) :
    (' ' ∈ s.data →
      normalize_string s = removeDesignatedChars (pyUpper (pyStrip s)))
    ∧ (' ' ∉ s.data →
      normalize_string s = removeDesignatedChars (pyUpper s)) := by
  constructor
  · intro hsp
    have hcs : containsSpace s = true := by
      simpa [containsSpace] using hsp
    simp only [normalize_string, hcs, if_true,
      normalize_removal_loop, triple_removeChar_eq]
  · intro hsp
    have hcs : containsSpace s = false := by
      simpa [containsSpace] using hsp
    simp only [normalize_string, hcs, Bool.false_eq_true, if_false,
      normalize_removal_loop, triple_removeChar_eq]

/-- Witness for the amended C6: `"a b"` contains a space and goes
through the strip; `"\ta"` contains no space (though it contains
whitespace) and is not stripped. -/
theorem stripExactlyOnSpace_witness :
    (' ' ∈ "a b".data
      ∧ normalize_string "a b" = removeDesignatedChars (pyUpper (pyStrip "a b")))
    ∧ (' ' ∉ "\ta".data
      ∧ normalize_string "\ta" = removeDesignatedChars (pyUpper "\ta")) := by
  refine ⟨⟨by decide, ?_⟩, ⟨by decide, ?_⟩⟩
  · exact (stripExactlyOnSpace "a b").1 (by decide)
  · exact (stripExactlyOnSpace "\ta").2 (by decide)

/-! Expansion lemmas -/

/-- One pass of `expand_strings` keeps a member and adds its image under
the transformation of the pass; in particular it contains the conditionally
char-removed form of any member. -/
theorem condRemove_mem_step (b : Bool) (c : Char) {r : Finset String}
    {x : String} (hx : x ∈ r) :
    condRemove b c x ∈ r ∪ r.image (removeChar c) := by
  cases b
  · exact Finset.mem_union_left _ hx
  · exact Finset.mem_union_right _ (Finset.mem_image_of_mem _ hx)

/-- C8: Expansion membership: for every string `s` and every subset of
the default removal characters (encoded by the three Booleans), the
variant of `s` with the selected characters removed is in
`expand_strings [s]`, together with its uppercase and lowercase forms;
and `expand_strings ["AB-cd"]` contains the six required strings. -/
theorem expandStringsSubsetRemovals :
    (∀ (s : String) (b1 b2 b3 : Bool),
      condRemove b3 apostrophe (condRemove b2 '_' (condRemove b1 '-' s))
          ∈ expand_strings [s]
      ∧ pyUpper (condRemove b3 apostrophe
            (condRemove b2 '_' (condRemove b1 '-' s)))
          ∈ expand_strings [s]
      ∧ pyLower (condRemove b3 apostrophe
            (condRemove b2 '_' (condRemove b1 '-' s)))
          ∈ expand_strings [s])
    ∧ "AB-cd" ∈ expand_strings ["AB-cd"]
    ∧ "ABcd" ∈ expand_strings ["AB-cd"]
    ∧ "ABCD" ∈ expand_strings ["AB-cd"]
    ∧ "abcd" ∈ expand_strings ["AB-cd"]
    ∧ "AB-CD" ∈ expand_strings ["AB-cd"]
    ∧ "ab-cd" ∈ expand_strings ["AB-cd"] := by
  refine ⟨?_, by decide, by decide, by decide, by decide, by decide,
    by decide⟩
  intro s b1 b2 b3
  have h0 : s ∈ ([s].toFinset : Finset String) := by simp
  have h1 := condRemove_mem_step b1 '-' h0
  have h2 := condRemove_mem_step b2 '_' h1
  have h3 := condRemove_mem_step b3 apostrophe h2
  refine ⟨?_, ?_, ?_⟩
  · exact Finset.mem_union_left _ (Finset.mem_union_left _ h3)
  · exact Finset.mem_union_left _
      (Finset.mem_union_right _ (Finset.mem_image_of_mem _ h3))
  · exact Finset.mem_union_right _
      (Finset.mem_image_of_mem _ (Finset.mem_union_left _ h3))

/-! Inversion lemmas -/

/-- Membership after one `result[vi].add(key)` step. -/
theorem mem_addKeyUnder {r : String → Finset String} {vi key k v : String} :
    k ∈ addKeyUnder r vi key v ↔ (k ∈ r v ∨ (k = key ∧ v = vi)) := by
  unfold addKeyUnder
  by_cases h : v = vi
  · subst h
    simp [Finset.mem_insert]
    tauto
  · simp [h]

/-- Membership after folding `add` over the elements of a collection
value. -/
theorem mem_collFold (l : List String) :
    ∀ (r : String → Finset String) {k key v : String},
    k ∈ (l.foldl (fun r vi => addKeyUnder r vi key) r) v
      ↔ (k ∈ r v ∨ (k = key ∧ v ∈ l)) := by
  induction l with
  | nil =>
    intro r k key v
    simp
  | cons a t ih =>
    intro r k key v
    simp only [List.foldl_cons]
    rw [ih, mem_addKeyUnder]
    simp only [List.mem_cons]
    tauto

/-- Unfolding `keyMapsToValue` over a `cons`. -/
theorem keyMapsToValue_cons (key : String) (val : DictVal)
    (t : List (String × DictVal)) (k v : String) :
    keyMapsToValue ((key, val) :: t) k v
      ↔ ((k = key ∧ (val = .scalar v ∨ ∃ l, val = .coll l ∧ v ∈ l))
          ∨ keyMapsToValue t k v) := by
  unfold keyMapsToValue
  constructor
  · rintro ⟨w, hw, hcond⟩
    rcases List.mem_cons.mp hw with h | h
    · obtain ⟨hk, hv⟩ := Prod.mk.injEq .. ▸ h
      left
      subst hk
      subst hv
      exact ⟨rfl, hcond⟩
    · right
      exact ⟨w, h, hcond⟩
  · rintro (⟨hk, hcond⟩ | ⟨w, hw, hcond⟩)
    · subst hk
      exact ⟨val, List.mem_cons_self _ _, hcond⟩
    · exact ⟨w, List.mem_cons_of_mem _ hw, hcond⟩

/-- Membership in the `invert_dictionary` fold with an arbitrary
accumulator. -/
theorem mem_invertFold (d : List (String × DictVal)) :
    ∀ (r : String → Finset String) (k v : String),
    k ∈ (d.foldl
          (fun r kv =>
            match kv.2 with
            | .coll l => l.foldl (fun r vi => addKeyUnder r vi kv.1) r
            | .scalar s => addKeyUnder r s kv.1) r) v
      ↔ (k ∈ r v ∨ keyMapsToValue d k v) := by
  induction d with
  | nil =>
    intro r k v
    simp [keyMapsToValue]
  | cons p t ih =>
    intro r k v
    obtain ⟨key, val⟩ := p
    simp only [List.foldl_cons]
    rw [ih, keyMapsToValue_cons]
    cases val with
    | scalar s =>
      rw [mem_addKeyUnder]
      simp only [DictVal.scalar.injEq, reduceCtorEq, false_and,
        exists_const, or_false, exists_false]
      constructor
      · rintro ((h | ⟨hk, hv⟩) | h)
        · exact Or.inl h
        · exact Or.inr (Or.inl ⟨hk, hv.symm⟩)
        · exact Or.inr (Or.inr h)
      · rintro (h | (⟨hk, hv⟩ | h))
        · exact Or.inl (Or.inl h)
        · exact Or.inl (Or.inr ⟨hk, hv.symm⟩)
        · exact Or.inr h
    | coll l =>
      rw [mem_collFold]
      simp only [DictVal.coll.injEq, reduceCtorEq, false_or]
      constructor
      · rintro ((h | ⟨hk, hv⟩) | h)
        · exact Or.inl h
        · exact Or.inr (Or.inl ⟨hk, ⟨l, rfl, hv⟩⟩)
        · exact Or.inr (Or.inr h)
      · rintro (h | (⟨hk, ⟨w, hw, hv⟩⟩ | h))
        · exact Or.inl (Or.inl h)
        · obtain rfl : l = w := DictVal.coll.injEq .. ▸ hw
          exact Or.inl (Or.inr ⟨hk, hv⟩)
        · exact Or.inr h

/-- C9: Dictionary inversion: `invert_dictionary d` maps each value
element `v` to exactly the keys that map to `v` directly or via
membership in a collection value; and on
`{"x": ["a","b"], "y": "a"}` it yields `{"a": {"x","y"}, "b": {"x"}}`. -/
theorem invertDictionaryMembership :
    (∀ (d : List (String × DictVal)) (v k : String),
      k ∈ invert_dictionary d v ↔ keyMapsToValue d k v)
    ∧ invert_dictionary exampleDict "a" = {"x", "y"}
    ∧ invert_dictionary exampleDict "b" = {"x"} := by
  refine ⟨?_, by decide, by decide⟩
  intro d v k
  unfold invert_dictionary
  rw [mem_invertFold]
  simp

